import Mathlib

/-!
Verification of the market-price scraping routine of the apartment-price
app (`app.py`).  The scraping core (`parse_price`, the listing extraction
loop, the per-locality pagination loop and the survey orchestrator
`scrape_market_prices`) is embedded shallowly: the network is an explicit
environment mapping a page index to a fetch outcome, machine floats are
modelled as exact rationals, and the observable side effects (page fetches,
the inter-request delay, progress-callback invocations) are recorded in an
explicit action trace.
-/

/-- Outcome of one page fetch (`session.get` + `raise_for_status`):
either the request fails (timeout, connection error, non-2xx status —
all raised as `requests.RequestException`), or it succeeds and the HTML
parses to a list of listing nodes (`soup.select('section.search-results__item')`).
Each listing node is modelled by the text of its total-price tag
(`.result-info__price--total span`), `none` when the tag is absent. -/
inductive FetchOutcome where
  | failure : FetchOutcome
  | success : List (Option String) → FetchOutcome
deriving DecidableEq

/-- Observable actions of one survey run: an HTTP GET of a page index,
the `time.sleep(0.5)` delay, and a `progress_callback(fraction, message)`
invocation. -/
inductive SurveyAction where
  | fetch : ℕ → SurveyAction
  | sleep : SurveyAction
  | progress : ℚ → String → SurveyAction
deriving DecidableEq

/-- Constant `LOCALITY_URL_MAP` from `app.py`: the fixed ordered mapping from
locality name to URL path segment (Python dicts preserve insertion order). -/
def LOCALITY_URL_MAP : List (String × String) :=
  [("Łódź Bałuty", "lodz-baluty"),
   ("Łódź Górna", "lodz-gorna"),
   ("Łódź Śródmieście", "lodz-srodmiescie"),
   ("Łódź Widzew", "lodz-widzew"),
   ("Łódź Polesie", "lodz-polesie")]

/-- Constant `DEFAULT_MARKET_PRICES` from `app.py`: the static fallback prices. -/
def DEFAULT_MARKET_PRICES : List (String × ℚ) :=
  [("Łódź Bałuty", 380000),
   ("Łódź Górna", 420000),
   ("Łódź Śródmieście", 500000),
   ("Łódź Widzew", 450000),
   ("Łódź Polesie", 400000)]

/-- Lookup `DEFAULT_MARKET_PRICES.get(locality, 400000)` from `app.py` line 99. -/
def default_market_price (locality : String) : ℚ :=
  match DEFAULT_MARKET_PRICES.lookup locality with
  | some v => v
  | none => 400000

/-- Numeric value of a digit string, read left to right
(models `float(price_clean)` on a string of decimal digits). -/
def natOfDigits (l : List Char) : ℕ :=
  l.foldl (fun n c => 10 * n + (c.toNat - 48)) 0

/-- Function `parse_price` from `app.py` lines 36-45.  `None` or `""` is falsy and
returns `None`; otherwise the text is stripped of non-breaking spaces and
spaces (`.replace('\xa0','').replace(' ','')`, modelled as a character
filter since both patterns are single characters) and then of every
non-digit character (`re.sub(r'[^\d]','',...)`); an empty remaining digit
string yields `None`, else the digits are read as a number. -/
def parse_price (price_text : Option String) : Option ℚ :=
  match price_text with
  | none => none
  | some s =>
    if s = "" then none
    else
      let stripped := s.toList.filter (fun c => c != '\u00A0' && c != ' ')
      let price_clean := stripped.filter Char.isDigit
      if price_clean = [] then none
      else some ((natOfDigits price_clean : ℕ) : ℚ)

/-- The per-listing loop of `scrape_market_prices` (`app.py` lines 77-86):
for each listing node, when the total-price tag is present its text is fed
to `parse_price`, and the price is appended only when truthy
(`if price:`), i.e. parsed and nonzero. -/
def extract_prices (listings : List (Option String)) : List ℚ :=
  listings.filterMap (fun item =>
    match item with
    | none => none
    | some t =>
      match parse_price (some t) with
      | none => none
      | some price => if price = 0 then none else some price)

/-- The per-locality page loop of `scrape_market_prices` (`app.py`
lines 63-92), over `page_num = page, page+1, ...` with `fuel` iterations
left.  A failed fetch `continue`s to the next page with no sleep; a page
with zero listing nodes `break`s; otherwise the extracted prices are
collected, `time.sleep(0.5)` runs, and the loop advances.  Returns the
collected prices and the action trace. -/
def scrapePages (env : ℕ → FetchOutcome) : ℕ → ℕ → List ℚ × List SurveyAction
  | _, 0 => ([], [])
  | page, fuel + 1 =>
    match env page with
    | .failure =>
      let rest := scrapePages env (page + 1) fuel
      (rest.1, .fetch page :: rest.2)
    | .success [] => ([], [.fetch page])
    | .success (x :: xs) =>
      let rest := scrapePages env (page + 1) fuel
      (extract_prices (x :: xs) ++ rest.1, .fetch page :: .sleep :: rest.2)

/-- The per-locality body of `scrape_market_prices` (`app.py` lines 60-99):
run the page loop from page 1, then return the arithmetic mean of the
collected prices, or the static default when none were collected. -/
def aggregate_locality (env : ℕ → FetchOutcome) (locality : String) (pages : ℕ) :
    ℚ × List SurveyAction :=
  let r := scrapePages env 1 pages
  (if r.1 = [] then default_market_price locality
   else r.1.sum / (r.1.length : ℚ), r.2)

/-- The locality loop of `scrape_market_prices` (`app.py` lines 56-102):
`idx` enumerates the localities, `total` is `len(LOCALITY_URL_MAP)`.
When a callback is supplied, a progress event `(idx + 0.1)/total` is
emitted before each locality and `(idx + 1)/total` after it. -/
def surveyGo (env : String → ℕ → FetchOutcome) (pages : ℕ) (hasCallback : Bool)
    (total : ℕ) : ℕ → List (String × String) → List (String × ℚ) × List SurveyAction
  | _, [] => ([], [])
  | idx, (locality, url_suffix) :: rest =>
    let startEvt : List SurveyAction :=
      if hasCallback then
        [.progress (((idx : ℚ) + 1/10) / (total : ℚ)) ("Scrapowanie " ++ locality ++ "...")]
      else []
    let agg := aggregate_locality (env url_suffix) locality pages
    let doneEvt : List SurveyAction :=
      if hasCallback then
        [.progress (((idx : ℚ) + 1) / (total : ℚ)) ("Zakończono " ++ locality)]
      else []
    let r := surveyGo env pages hasCallback total (idx + 1) rest
    ((locality, agg.1) :: r.1, startEvt ++ agg.2 ++ doneEvt ++ r.2)

/-- Function `scrape_market_prices` from `app.py` lines 48-104: iterate all known
localities, aggregate each, and return the locality → average-price
mapping together with the action trace.  `env` gives each locality's
pages by URL suffix; `hasCallback` records whether `progress_callback`
was supplied (default `None` in the source). -/
def scrape_market_prices (env : String → ℕ → FetchOutcome) (pages : ℕ)
    (hasCallback : Bool) : List (String × ℚ) × List SurveyAction :=
  surveyGo env pages hasCallback LOCALITY_URL_MAP.length 0 LOCALITY_URL_MAP

/-- The pieces of Streamlit session state that the scrape button touches
(`app.py` lines 126-131): the held market-price mapping, the time of the
last successful scrape, and the in-progress flag. -/
structure SessionState where
  market_prices : List (String × ℚ)
  last_scraped : Option ℕ
  scraping_in_progress : Bool
deriving DecidableEq

/-- The scrape-button handler in `main` (`app.py` lines 136-156): the
in-progress flag is set, then the survey runs inside `try`; on success the
mapping and timestamp are stored and a success message shown, on any
exception the state is left as is (apart from clearing the flag) and an
error message is shown.  The survey outcome is passed in explicitly
(`Except` models the raised-or-returned result); the returned string is
the sidebar status message. -/
def scrape_button_handler (st : SessionState) (now : ℕ)
    (outcome : Except String (List (String × ℚ))) : SessionState × String :=
  let st1 : SessionState := { st with scraping_in_progress := true }
  match outcome with
  | .ok mp =>
    ({ st1 with market_prices := mp, last_scraped := some now,
                scraping_in_progress := false },
     "Ceny rynkowe zostały zaktualizowane!")
  | .error e =>
    ({ st1 with scraping_in_progress := false },
     "Błąd podczas scrapowania: " ++ e)

/-- Fractions of the progress events of a trace, in emission order. -/
def progressFracs (tr : List SurveyAction) : List ℚ :=
  tr.filterMap (fun a =>
    match a with
    | .progress q _ => some q
    | _ => none)

/-- The actions one fetched page contributes to the trace: the fetch,
followed by the `time.sleep(0.5)` exactly when the fetch succeeded and the
page had at least one listing node (the sleep sits inside the `try` after
the listing loop, so a failed fetch or an empty page skips it). -/
def pageTrace (env : ℕ → FetchOutcome) (page : ℕ) : List SurveyAction :=
  match env page with
  | .failure => [.fetch page]
  | .success [] => [.fetch page]
  | .success (_ :: _) => [.fetch page, .sleep]

/-- The page indices the loop actually fetches: consecutive from the start
page, ending at the budget or at the first zero-listing page (inclusive). -/
def fetchedPages (env : ℕ → FetchOutcome) : ℕ → ℕ → List ℕ
  | _, 0 => []
  | page, fuel + 1 =>
    match env page with
    | .failure => page :: fetchedPages env (page + 1) fuel
    | .success [] => [page]
    | .success (_ :: _) => page :: fetchedPages env (page + 1) fuel

/-! ### Helper lemmas -/

/-- The result component of the survey is the locality list mapped through
the aggregator; it depends neither on the enumeration index nor on the
presence of a callback. -/
lemma surveyGo_fst (env : String → ℕ → FetchOutcome) (pages : ℕ) (cb : Bool) (total : ℕ) :
    ∀ (locs : List (String × String)) (idx : ℕ),
      (surveyGo env pages cb total idx locs).1
        = locs.map (fun ls => (ls.1, (aggregate_locality (env ls.2) ls.1 pages).1)) := by
  intro locs
  induction locs with
  | nil => intro idx; rfl
  | cons ls rest ih =>
    intro idx
    cases ls with
    | mk a b => simp [surveyGo, ih]

/-- Each locality's entry is a mean of a non-empty price list or the
static default. -/
lemma aggregate_mean_or_default (env : ℕ → FetchOutcome) (loc : String) (pages : ℕ) :
    (∃ ps : List ℚ, ps ≠ [] ∧ (aggregate_locality env loc pages).1 = ps.sum / (ps.length : ℚ))
    ∨ (aggregate_locality env loc pages).1 = default_market_price loc := by
  by_cases h : (scrapePages env 1 pages).1 = []
  · right; simp [aggregate_locality, h]
  · left; exact ⟨(scrapePages env 1 pages).1, h, by simp [aggregate_locality, h]⟩

/-- When every fetch fails, the page loop collects no prices. -/
lemma scrapePages_allfail (env : ℕ → FetchOutcome) (h : ∀ n, env n = FetchOutcome.failure) :
    ∀ (f s : ℕ), (scrapePages env s f).1 = [] := by
  intro f
  induction f with
  | zero => intro s; rfl
  | succ f ih => intro s; simp [scrapePages, h s, ih]

/-- Page `m` is fetched exactly when it lies within the page budget and no
earlier page in the run returned zero listing nodes (the only `break`). -/
lemma scrapePages_fetch_mem (env : ℕ → FetchOutcome) :
    ∀ (f s m : ℕ),
      SurveyAction.fetch m ∈ (scrapePages env s f).2
        ↔ s ≤ m ∧ m < s + f ∧ ∀ k, s ≤ k → k < m → env k ≠ FetchOutcome.success [] := by
  intro f
  induction f with
  | zero =>
    intro s m
    constructor
    · intro h; simp [scrapePages] at h
    · rintro ⟨h1, h2, -⟩; exact absurd h2 (by omega)
  | succ f ih =>
    intro s m
    rcases henv : env s with _ | l
    case failure =>
      simp only [scrapePages, henv, List.mem_cons, SurveyAction.fetch.injEq, ih (s + 1) m]
      constructor
      · rintro (rfl | ⟨h1, h2, h3⟩)
        · exact ⟨le_refl m, by omega, fun k hk1 hk2 => absurd hk2 (by omega)⟩
        · refine ⟨by omega, by omega, fun k hk1 hk2 => ?_⟩
          rcases eq_or_lt_of_le hk1 with rfl | hk
          · rw [henv]; intro hc; cases hc
          · exact h3 k (by omega) hk2
      · rintro ⟨h1, h2, h3⟩
        rcases eq_or_lt_of_le h1 with rfl | h
        · exact Or.inl rfl
        · exact Or.inr ⟨by omega, by omega, fun k hk1 hk2 => h3 k (by omega) hk2⟩
    case success =>
      rcases l with _ | ⟨x, xs⟩
      · simp only [scrapePages, henv, List.mem_singleton, SurveyAction.fetch.injEq]
        constructor
        · rintro rfl
          exact ⟨le_refl m, by omega, fun k hk1 hk2 => absurd hk2 (by omega)⟩
        · rintro ⟨h1, h2, h3⟩
          rcases eq_or_lt_of_le h1 with rfl | h
          · rfl
          · exact absurd henv (h3 s (le_refl s) h)
      · simp only [scrapePages, henv, List.mem_cons, SurveyAction.fetch.injEq,
          ih (s + 1) m, reduceCtorEq, false_or]
        constructor
        · rintro (rfl | ⟨h1, h2, h3⟩)
          · exact ⟨le_refl m, by omega, fun k hk1 hk2 => absurd hk2 (by omega)⟩
          · refine ⟨by omega, by omega, fun k hk1 hk2 => ?_⟩
            rcases eq_or_lt_of_le hk1 with rfl | hk
            · rw [henv]; intro hc; cases hc
            · exact h3 k (by omega) hk2
        · rintro ⟨h1, h2, h3⟩
          rcases eq_or_lt_of_le h1 with rfl | h
          · exact Or.inl rfl
          · exact Or.inr ⟨by omega, by omega, fun k hk1 hk2 => h3 k (by omega) hk2⟩

/-! ### Claim theorems -/

/-- C1: every run of the survey, regardless of fetch failures, returns a
mapping whose keys are exactly the five known localities, in order, with
no missing and no extra entries; each entry's value is either the
arithmetic mean of a non-empty collected price list or the static default
for that locality. -/
theorem survey_result_keys_exact (env : String → ℕ → FetchOutcome) (pages : ℕ) (cb : Bool) :
    ((scrape_market_prices env pages cb).1.map Prod.fst
      = ["Łódź Bałuty", "Łódź Górna", "Łódź Śródmieście", "Łódź Widzew", "Łódź Polesie"])
    ∧ ∀ pr ∈ (scrape_market_prices env pages cb).1,
        (∃ ps : List ℚ, ps ≠ [] ∧ pr.2 = ps.sum / (ps.length : ℚ))
        ∨ pr.2 = default_market_price pr.1 := by
  constructor
  · rw [scrape_market_prices, surveyGo_fst]; rfl
  · intro pr hpr
    rw [scrape_market_prices, surveyGo_fst] at hpr
    simp only [LOCALITY_URL_MAP, List.map_cons, List.map_nil, List.mem_cons,
      List.not_mem_nil, or_false] at hpr
    rcases hpr with h | h | h | h | h <;>
      (subst h; simpa using aggregate_mean_or_default _ _ pages)

/-- C2: when every page fetch of a locality fails, the aggregator returns
exactly the static default price for that locality. -/
theorem aggregate_all_fail_default (env : ℕ → FetchOutcome) (loc : String) (pages : ℕ)
    (h : ∀ n, env n = FetchOutcome.failure) :
    (aggregate_locality env loc pages).1 = default_market_price loc := by
  simp [aggregate_locality, scrapePages_allfail env h]

/-- Witness for C2: with every network call failing, the survey of
"Łódź Bałuty" over the source's 8 pages yields the default 380000. -/
theorem aggregate_all_fail_default_witness :
    (aggregate_locality (fun _ => FetchOutcome.failure) "Łódź Bałuty" 8).1 = 380000 := by
  rw [aggregate_all_fail_default _ _ _ (fun _ => rfl)]
  decide

/-- C4: a failed page fetch neither terminates pagination nor aborts the
locality: if page `n` was fetched, its fetch failed, and the page budget is
not yet exhausted, then page `n + 1` is fetched as well.  (The
`requests.RequestException` handler `continue`s the loop, so no exception
from a failed page ever escapes the aggregator — the embedding is a total
function.) -/
theorem fetch_failure_continues (env : ℕ → FetchOutcome) (loc : String) (pages n : ℕ)
    (hmem : SurveyAction.fetch n ∈ (aggregate_locality env loc pages).2)
    (hfail : env n = FetchOutcome.failure) (hlt : n < pages) :
    SurveyAction.fetch (n + 1) ∈ (aggregate_locality env loc pages).2 := by
  have htr : (aggregate_locality env loc pages).2 = (scrapePages env 1 pages).2 := rfl
  rw [htr] at hmem ⊢
  rw [scrapePages_fetch_mem] at hmem ⊢
  obtain ⟨h1, h2, h3⟩ := hmem
  refine ⟨by omega, by omega, fun k hk1 hk2 => ?_⟩
  by_cases hk : k = n
  · subst hk; rw [hfail]; intro hc; cases hc
  · exact h3 k hk1 (by omega)

/-- Witness for C4: page 1 fails, yet page 2 is fetched. -/
theorem fetch_failure_continues_witness :
    SurveyAction.fetch 2 ∈ (aggregate_locality
      (fun k => if k = 1 then FetchOutcome.failure else FetchOutcome.success [some ("100000")])
      "Łódź Bałuty" 3).2 :=
  fetch_failure_continues
    (fun k => if k = 1 then FetchOutcome.failure else FetchOutcome.success [some ("100000")])
    "Łódź Bałuty" 3 1 (by decide) (by decide) (by decide)

/-- C3 as stated is false: pagination breaks on a page with zero listing
NODES, not on one whose extracted PRICE sequence is empty.  Here page 1's
single listing has unparsable price text, so its extracted price sequence
is empty, yet page 2 (a higher index) is still fetched. -/
theorem pagination_stop_counterexample :
    extract_prices [some ("abc")] = [] ∧
    SurveyAction.fetch 2 ∈ (aggregate_locality
      (fun n => if n = 1 then FetchOutcome.success [some ("abc")] else FetchOutcome.success [])
      "Łódź Bałuty" 8).2 := by
  decide

/-- C3 (amended): pagination stops at the first page with zero listing
nodes (a page with listings but an empty extracted price sequence does not
stop it).  In particular, when page 1's listings extract to prices
100000, 200000, 300000 and page 2 has zero listing nodes, the aggregator
returns the mean 200000 and fetches no page with index above 2. -/
theorem pagination_stop_amended (env : ℕ → FetchOutcome) (loc : String) (pages : ℕ)
    (l1 : List (Option String))
    (h1 : env 1 = FetchOutcome.success l1)
    (he : extract_prices l1 = [100000, 200000, 300000])
    (h2 : env 2 = FetchOutcome.success [])
    (hp : 2 ≤ pages) :
    (aggregate_locality env loc pages).1 = 200000 ∧
    ∀ m, 2 < m → SurveyAction.fetch m ∉ (aggregate_locality env loc pages).2 := by
  obtain ⟨k, rfl⟩ : ∃ k, pages = k + 2 := ⟨pages - 2, by omega⟩
  rcases l1 with _ | ⟨x, xs⟩
  · exact absurd he (by decide)
  have hsplit : k + 2 = (k + 1) + 1 := rfl
  have hloop : scrapePages env 1 (k + 2)
      = (extract_prices (x :: xs) ++ ([] : List ℚ),
         SurveyAction.fetch 1 :: SurveyAction.sleep :: [SurveyAction.fetch 2]) := by
    rw [hsplit]
    simp [scrapePages, h1, h2]
  constructor
  · rw [aggregate_locality, hloop]
    rw [he]
    norm_num
    intro h
    exact absurd h (by decide)
  · intro m hm hmem
    rw [show (aggregate_locality env loc (k + 2)).2 = (scrapePages env 1 (k + 2)).2 from rfl,
      hloop] at hmem
    simp only [List.mem_cons, List.not_mem_nil, or_false,
      SurveyAction.fetch.injEq] at hmem
    rcases hmem with h | h | h
    · omega
    · cases h
    · omega

/-- Witness for C3 (amended): the concrete two-page scenario. -/
theorem pagination_stop_amended_witness :
    (aggregate_locality
      (fun n => if n = 1
        then FetchOutcome.success [some ("100000"), some ("200000"), some ("300000")]
        else FetchOutcome.success [])
      "Łódź Widzew" 8).1 = 200000 ∧
    SurveyAction.fetch 3 ∉ (aggregate_locality
      (fun n => if n = 1
        then FetchOutcome.success [some ("100000"), some ("200000"), some ("300000")]
        else FetchOutcome.success [])
      "Łódź Widzew" 8).2 := by
  have h := pagination_stop_amended
    (fun n => if n = 1
      then FetchOutcome.success [some ("100000"), some ("200000"), some ("300000")]
      else FetchOutcome.success [])
    "Łódź Widzew" 8 [some ("100000"), some ("200000"), some ("300000")]
    (by decide) (by decide) (by decide) (by decide)
  exact ⟨h.1, h.2 3 (by decide)⟩

/-- Stripping spaces and non-breaking spaces does not change which digit
characters survive the digit filter. -/
lemma strip_digit_pred (c : Char) :
    ((c != '\u00A0' && c != ' ') && c.isDigit) = c.isDigit := by
  by_cases h0 : c = '\u00A0'
  · subst h0; decide
  · by_cases h1 : c = ' '
    · subst h1; decide
    · have e0 : (c != '\u00A0') = true := bne_iff_ne.mpr h0
      have e1 : (c != ' ') = true := bne_iff_ne.mpr h1
      rw [e0, e1]
      simp

/-- The digit string `parse_price` reads is exactly the digit characters
of the input, in order. -/
lemma filter_strip_digits (l : List Char) :
    (l.filter (fun c => c != '\u00A0' && c != ' ')).filter Char.isDigit
      = l.filter Char.isDigit := by
  induction l with
  | nil => rfl
  | cons c l ih =>
    by_cases h0 : c = '\u00A0'
    · subst h0
      have hd : Char.isDigit ('\u00A0') = false := by decide
      simp [List.filter_cons, hd, ih]
    · by_cases h1 : c = ' '
      · subst h1
        have hd : Char.isDigit (' ') = false := by decide
        simp [List.filter_cons, hd, ih]
      · have e0 : (c != '\u00A0') = true := bne_iff_ne.mpr h0
        have e1 : (c != ' ') = true := bne_iff_ne.mpr h1
        simp [List.filter_cons, e0, e1, ih]

/-- C5: `parse_price` of a null input is the no-value signal; of a string
with no digit characters it is the no-value signal; of a string with at
least one digit character it is the non-negative number whose decimal
digits are exactly the input's digit characters in order.  The embedding
is total, so no error is ever raised. -/
theorem parse_price_spec (s : String) :
    parse_price none = none ∧
    (s.toList.filter Char.isDigit = [] → parse_price (some s) = none) ∧
    (s.toList.filter Char.isDigit ≠ [] →
      parse_price (some s)
        = some ((natOfDigits (s.toList.filter Char.isDigit) : ℕ) : ℚ) ∧
      ∀ q : ℚ, parse_price (some s) = some q → 0 ≤ q) := by
  have key : parse_price (some s)
      = if s = "" then none
        else if s.toList.filter Char.isDigit = [] then none
        else some ((natOfDigits (s.toList.filter Char.isDigit) : ℕ) : ℚ) := by
    show (if s = "" then none
      else if (s.toList.filter (fun c => c != '\u00A0' && c != ' ')).filter Char.isDigit = []
        then none
        else some ((natOfDigits
          ((s.toList.filter (fun c => c != '\u00A0' && c != ' ')).filter Char.isDigit) : ℕ) : ℚ))
      = _
    rw [filter_strip_digits]
  refine ⟨rfl, ?_, ?_⟩
  · intro h
    rw [key, h]
    by_cases hs : s = "" <;> simp [hs]
  · intro h
    have hs : s ≠ "" := by
      intro e
      subst e
      exact h rfl
    refine ⟨by rw [key, if_neg hs, if_neg h], fun q hq => ?_⟩
    rw [key, if_neg hs, if_neg h] at hq
    have hq2 : ((natOfDigits (s.toList.filter Char.isDigit) : ℕ) : ℚ) = q :=
      Option.some.inj hq
    rw [← hq2]
    exact Nat.cast_nonneg _

/-- Witness for C5: the spec's examples, via `parse_price_spec`. -/
theorem parse_price_spec_witness :
    parse_price (some ("380 000 zł")) = some 380000 ∧ parse_price (some ("zł")) = none ∧
    parse_price none = none := by
  refine ⟨?_, ?_, (parse_price_spec "x").1⟩
  · have h := ((parse_price_spec "380 000 zł").2.2 (by decide)).1
    rw [h]
    decide
  · exact (parse_price_spec "zł").2.1 (by decide)


/-- The page loop emits no progress events (only fetches and sleeps). -/
lemma scrapePages_no_progress (env : ℕ → FetchOutcome) :
    ∀ (f s : ℕ) (q : ℚ) (m : String),
      SurveyAction.progress q m ∉ (scrapePages env s f).2 := by
  intro f
  induction f with
  | zero =>
    intro s q m h
    simp [scrapePages] at h
  | succ f ih =>
    intro s q m h
    rcases henv : env s with _ | l
    · simp only [scrapePages, henv, List.mem_cons] at h
      rcases h with h | h
      · cases h
      · exact ih (s + 1) q m h
    · rcases l with _ | ⟨x, xs⟩
      · simp only [scrapePages, henv, List.mem_singleton] at h
        cases h
      · simp only [scrapePages, henv, List.mem_cons] at h
        rcases h with h | h | h
        · cases h
        · cases h
        · exact ih (s + 1) q m h

/-- Hence the page loop contributes no progress fractions. -/
lemma progressFracs_scrapePages (env : ℕ → FetchOutcome) (f s : ℕ) :
    progressFracs (scrapePages env s f).2 = [] := by
  rw [progressFracs, List.filterMap_eq_nil_iff]
  intro a ha
  rcases a with n | _ | ⟨q, m⟩
  · rfl
  · rfl
  · exact absurd ha (scrapePages_no_progress env f s q m)

/-- Map `progressFracs` distributes over trace concatenation. -/
lemma progressFracs_append (t1 t2 : List SurveyAction) :
    progressFracs (t1 ++ t2) = progressFracs t1 ++ progressFracs t2 :=
  List.filterMap_append t1 t2 _

/-- A lone progress event contributes exactly its fraction. -/
lemma progressFracs_single (q : ℚ) (msg : String) :
    progressFracs [SurveyAction.progress q msg] = [q] := rfl

/-- A leading progress event contributes its fraction. -/
lemma progressFracs_cons_progress (q : ℚ) (msg : String) (l : List SurveyAction) :
    progressFracs (SurveyAction.progress q msg :: l) = q :: progressFracs l := rfl

/-- The empty trace has no progress fractions. -/
lemma progressFracs_nil : progressFracs [] = [] := rfl

/-- The progress fractions of a full survey run with a callback are the
fixed ascending sequence, independent of the network environment. -/
lemma progressFracs_scrape (env : String → ℕ → FetchOutcome) (pages : ℕ) :
    progressFracs (scrape_market_prices env pages true).2
      = [1/50, 1/5, 11/50, 2/5, 21/50, 3/5, 31/50, 4/5, 41/50, 1] := by
  show progressFracs (surveyGo env pages true 5 0 LOCALITY_URL_MAP).2 = _
  simp [LOCALITY_URL_MAP, surveyGo, aggregate_locality, progressFracs_append,
    progressFracs_single, progressFracs_cons_progress, progressFracs_nil,
    progressFracs_scrapePages]
  norm_num


/-- The page-loop trace decomposes page by page: each fetched page
contributes its fetch, followed by a sleep exactly when it succeeded with
at least one listing. -/
lemma scrapePages_trace (env : ℕ → FetchOutcome) :
    ∀ (f s : ℕ), (scrapePages env s f).2 = (fetchedPages env s f).flatMap (pageTrace env) := by
  intro f
  induction f with
  | zero => intro s; rfl
  | succ f ih =>
    intro s
    rcases henv : env s with _ | l
    · simp [scrapePages, fetchedPages, pageTrace, henv, ih (s + 1)]
    · rcases l with _ | ⟨x, xs⟩
      · simp [scrapePages, fetchedPages, pageTrace, henv]
      · simp [scrapePages, fetchedPages, pageTrace, henv, ih (s + 1)]

/-- A parsed price is a natural number cast, hence non-negative. -/
lemma parse_price_nonneg (s : String) (q : ℚ) (h : parse_price (some s) = some q) :
    0 ≤ q := by
  have key : parse_price (some s)
      = if s = "" then none
        else if (s.toList.filter (fun c => c != '\u00A0' && c != ' ')).filter Char.isDigit
            = [] then none
        else some ((natOfDigits
          ((s.toList.filter (fun c => c != '\u00A0' && c != ' ')).filter Char.isDigit)
            : ℕ) : ℚ) := rfl
  rw [key] at h
  split_ifs at h
  cases h
  exact Nat.cast_nonneg _

/-- Every price the extractor keeps is strictly positive: zero parses are
filtered out by Python truthiness along with unparsable ones. -/
lemma extract_prices_pos (listings : List (Option String)) :
    ∀ p ∈ extract_prices listings, 0 < p := by
  intro p hp
  rw [extract_prices, List.mem_filterMap] at hp
  obtain ⟨item, hitem, hf⟩ := hp
  rcases item with _ | t
  · cases hf
  · rcases hpp : parse_price (some t) with _ | q
    · simp only [hpp] at hf
      cases hf
    · simp only [hpp] at hf
      by_cases hz : q = 0
      · rw [if_pos hz] at hf
        cases hf
      · rw [if_neg hz] at hf
        rw [← Option.some.inj hf]
        exact lt_of_le_of_ne (parse_price_nonneg t q hpp) (Ne.symm hz)

/-- Every price the page loop collects is strictly positive. -/
lemma scrapePages_pos (env : ℕ → FetchOutcome) :
    ∀ (f s : ℕ), ∀ p ∈ (scrapePages env s f).1, 0 < p := by
  intro f
  induction f with
  | zero =>
    intro s p hp
    simp [scrapePages] at hp
  | succ f ih =>
    intro s p hp
    rcases henv : env s with _ | l
    · simp only [scrapePages, henv] at hp
      exact ih (s + 1) p hp
    · rcases l with _ | ⟨x, xs⟩
      · simp only [scrapePages, henv] at hp
        exact absurd hp (List.not_mem_nil p)
      · simp only [scrapePages, henv, List.mem_append] at hp
        rcases hp with hp | hp
        · exact extract_prices_pos _ p hp
        · exact ih (s + 1) p hp

/-- With no callback, the survey emits no progress events at all. -/
lemma surveyGo_no_progress (env : String → ℕ → FetchOutcome) (pages total : ℕ) :
    ∀ (locs : List (String × String)) (idx : ℕ) (q : ℚ) (m : String),
      SurveyAction.progress q m ∉ (surveyGo env pages false total idx locs).2 := by
  intro locs
  induction locs with
  | nil =>
    intro idx q m h
    simp [surveyGo] at h
  | cons ls rest ih =>
    intro idx q m h
    cases ls with
    | mk a b =>
      simp [surveyGo, List.mem_append] at h
      rcases h with h | h
      · exact scrapePages_no_progress (env b) pages 1 q m h
      · exact ih (idx + 1) q m h

/-- C6: over one survey run with a callback, the emitted progress
fractions are monotonically non-decreasing, all lie in `[0, 1]`, and the
final one equals exactly 1. -/
theorem progress_monotone_final_one (env : String → ℕ → FetchOutcome) (pages : ℕ) :
    List.Chain' (· ≤ ·) (progressFracs (scrape_market_prices env pages true).2) ∧
    (∀ q ∈ progressFracs (scrape_market_prices env pages true).2, 0 ≤ q ∧ q ≤ 1) ∧
    (progressFracs (scrape_market_prices env pages true).2).getLast? = some 1 := by
  rw [progressFracs_scrape]
  refine ⟨?_, ?_, ?_⟩
  · norm_num [List.chain'_cons]
  · norm_num [List.forall_mem_cons]
  · rfl

/-- C7: when the survey raises, the top-level handler catches it, reports
the failure message, and leaves the previously held market-price mapping
(and last-scraped timestamp) untouched; only the in-progress flag is
cleared. -/
theorem survey_error_preserves_state (st : SessionState) (now : ℕ) (e : String) :
    (scrape_button_handler st now (.error e)).1.market_prices = st.market_prices ∧
    (scrape_button_handler st now (.error e)).1.last_scraped = st.last_scraped ∧
    (scrape_button_handler st now (.error e)).1.scraping_in_progress = false ∧
    (scrape_button_handler st now (.error e)).2 = "Błąd podczas scrapowania: " ++ e :=
  ⟨rfl, rfl, rfl, rfl⟩

/-- C8: the progress observer does not interfere with the result: over the
same fetched pages, the survey with no callback returns the same mapping
as the survey with a callback, and the no-callback run performs no
observer calls. -/
theorem progress_callback_noninterference (env : String → ℕ → FetchOutcome) (pages : ℕ) :
    (scrape_market_prices env pages false).1 = (scrape_market_prices env pages true).1 ∧
    ∀ (q : ℚ) (m : String),
      SurveyAction.progress q m ∉ (scrape_market_prices env pages false).2 := by
  constructor
  · rw [scrape_market_prices, scrape_market_prices, surveyGo_fst, surveyGo_fst]
  · intro q m
    exact surveyGo_no_progress env pages LOCALITY_URL_MAP.length LOCALITY_URL_MAP 0 q m

/-- C9 as stated is false: the 0.5 s delay is NOT imposed after every
network call.  With both fetches failing, the trace is two back-to-back
fetches with no sleep anywhere between or after them. -/
theorem sleep_after_failed_call_counterexample :
    (aggregate_locality (fun _ => FetchOutcome.failure) "Łódź Górna" 2).2
      = [SurveyAction.fetch 1, SurveyAction.fetch 2] ∧
    SurveyAction.sleep ∉
      (aggregate_locality (fun _ => FetchOutcome.failure) "Łódź Górna" 2).2 := by
  decide

/-- C9 (amended): the delay discipline the code implements: the trace is,
page by fetched page, the fetch followed by one 0.5 s sleep exactly when
that fetch succeeded with at least one listing node; after a failed fetch
or a zero-listing page no delay is imposed. -/
theorem sleep_trace_amended (env : ℕ → FetchOutcome) (loc : String) (pages : ℕ) :
    (aggregate_locality env loc pages).2
      = (fetchedPages env 1 pages).flatMap (pageTrace env) :=
  scrapePages_trace env pages 1

/-- C10: only strictly positive parsed prices are ever collected (a price
text parsing to exactly 0 is skipped like an unparseable one), so whenever
the aggregator returns a computed mean rather than the default, that mean
is strictly positive. -/
theorem computed_mean_positive (env : ℕ → FetchOutcome) (loc : String) (pages : ℕ) :
    (∀ p ∈ (scrapePages env 1 pages).1, 0 < p) ∧
    ((scrapePages env 1 pages).1 ≠ [] → 0 < (aggregate_locality env loc pages).1) := by
  refine ⟨fun p hp => scrapePages_pos env pages 1 p hp, fun hne => ?_⟩
  have hsum : 0 < (scrapePages env 1 pages).1.sum :=
    List.sum_pos _ (fun p hp => scrapePages_pos env pages 1 p hp) hne
  have hlen : 0 < ((scrapePages env 1 pages).1.length : ℚ) := by
    have hl : (scrapePages env 1 pages).1.length ≠ 0 := by
      intro h0
      exact hne (List.eq_nil_of_length_eq_zero h0)
    exact_mod_cast Nat.pos_of_ne_zero hl
  have hagg : (aggregate_locality env loc pages).1
      = (scrapePages env 1 pages).1.sum / ((scrapePages env 1 pages).1.length : ℚ) := by
    simp [aggregate_locality, hne]
  rw [hagg]
  exact div_pos hsum hlen

/-- Witness for C10: a page whose first listing parses to 0 contributes
only the positive price, and the resulting mean is strictly positive. -/
theorem computed_mean_positive_witness :
    extract_prices [some ("0 zł"), some ("100 zł")] = [100] ∧
    0 < (aggregate_locality
      (fun n => if n = 1 then FetchOutcome.success [some ("0 zł"), some ("100 zł")]
       else FetchOutcome.success []) "Łódź Polesie" 8).1 :=
  ⟨by decide,
   (computed_mean_positive
     (fun n => if n = 1 then FetchOutcome.success [some ("0 zł"), some ("100 zł")]
      else FetchOutcome.success []) "Łódź Polesie" 8).2 (by decide)⟩
